import Mathlib

/-!
Verification of the Zemenbar Ethiopian-calendar core (src-tauri/src/lib.rs).

The pure core consists of: the Geez numeral encoder `to_geez_number`, the
Ethiopian month-length rule `days_in_month`, the Amharic/English month and
weekday name tables, the Gregorian/Ethiopian conversion entry point
`from_gregorian`, the weekday derivation, and the month-view builder
`CalendarMonth.new`.

The bidirectional date conversion itself lives in the external
`ethiopic_calendar` crate (types `GregorianYear`/`EthiopianYear`), and the
weekday primitive in the external `chrono` crate; neither is part of this
repository, so those pieces are modelled from the specification (doc comments
marked "Modelled from the spec"): conversion goes through a Julian Day Number
anchored at the Amete Mihret epoch (Ethiopian 1-1-1 at JDN 1724221, i.e.
JD 1724220.5 at midnight), and the weekday is the standard day-of-week of the
underlying day count with Sunday = 0.

Rust `panic` (out-of-bounds slice indexing in the Geez tables) is modelled by
`Option`: array indexing uses `List.get?`, and a `none` result means the Rust
code panics on that input.
-/

/-- The unit-digit glyph table `geez_digits` (source line 146), indices 0-9. -/
def geez_digits : List String :=
  ["", "፩", "፪", "፫", "፬", "፭", "፮", "፯", "፰", "፱"]

/-- The tens glyph table `geez_tens` (source line 147).  Note it has only nine
entries (indices 0-8): indexing it with 9 is out of bounds, and the entries at
indices 7 and 8 repeat the unit glyphs for 8 and 9. -/
def geez_tens : List String :=
  ["", "፲", "፳", "፴", "፵", "፶", "፷", "፰", "፱"]

/-- `EthiopianDate::to_geez_number` (source lines 141-211), with explicit fuel.
The Rust function recurses on strictly smaller arguments (`num % 100` and
`num / 100`), so fuel `num + 1` never runs out; the fuel only makes the
recursion structural.  A `none` result models a Rust panic from out-of-bounds
indexing into `geez_digits`/`geez_tens`. -/
def geezAux : Nat → Nat → Option String
  | 0, _ => none
  | _fuel + 1, num =>
    if num = 0 then
      some ""
    else if num < 10 then
      geez_digits.get? num
    else if num < 100 then
      let tens := num / 10
      let ones := num % 10
      if tens = 1 then
        if ones = 0 then
          some "፲"
        else
          (geez_digits.get? ones).map (fun s => "፲" ++ s)
      else if ones = 0 then
        geez_tens.get? tens
      else do
        let t ← geez_tens.get? tens
        let o ← geez_digits.get? ones
        some (t ++ o)
    else if num < 1000 then
      let hundreds := num / 100
      let remainder := num % 100
      do
        let hundred_part ←
          if hundreds = 1 then
            some "፻"
          else
            (geez_digits.get? hundreds).map (fun s => s ++ "፻")
        if remainder = 0 then
          some hundred_part
        else do
          let r ← geezAux _fuel remainder
          some (hundred_part ++ r)
    else if num < 10000 then
      let thousands := num / 100
      let remainder := num % 100
      do
        let hundred_part ←
          if thousands < 10 then
            (geez_digits.get? thousands).map (fun s => s ++ "፻")
          else if thousands < 100 then
            let tens := thousands / 10
            let ones := thousands % 10
            if tens = 1 then
              if ones = 0 then
                some "፲፻"
              else
                (geez_digits.get? ones).map (fun s => "፲" ++ s ++ "፻")
            else if ones = 0 then
              (geez_tens.get? tens).map (fun s => s ++ "፻")
            else do
              let t ← geez_tens.get? tens
              let o ← geez_digits.get? ones
              some (t ++ o ++ "፻")
          else
            (geezAux _fuel thousands).map (fun s => s ++ "፻")
        if remainder = 0 then
          some hundred_part
        else do
          let r ← geezAux _fuel remainder
          some (hundred_part ++ r)
    else
      some (Nat.repr num)

/-- `EthiopianDate::to_geez_number` entry point: fuel `num + 1` is always
enough because every recursive call strictly decreases `num`. -/
def to_geez_number (num : Nat) : Option String :=
  geezAux (num + 1) num

/-- `EthiopianDate::days_in_month` (source lines 91-101). -/
def days_in_month (year month : Nat) : Nat :=
  if month = 13 then
    if year % 4 = 3 then 6 else 5
  else
    30

/-- `EthiopianDate::amharic_month` (source lines 53-70); the Rust `match` on an
integer scrutinee with a wildcard arm is written as an `if`-chain. -/
def amharic_month (month : Nat) : String :=
  if month = 1 then "መስከረም"
  else if month = 2 then "ጥቅምት"
  else if month = 3 then "ኅዳር"
  else if month = 4 then "ታኅሣሥ"
  else if month = 5 then "ጥር"
  else if month = 6 then "የካቲት"
  else if month = 7 then "መጋቢት"
  else if month = 8 then "ሚያዝያ"
  else if month = 9 then "ግንቦት"
  else if month = 10 then "ሰኔ"
  else if month = 11 then "ሐምሌ"
  else if month = 12 then "ነሐሴ"
  else if month = 13 then "ጳጉሜ"
  else "Unknown"

/-- `EthiopianDate::english_month` (source lines 72-89). -/
def english_month (month : Nat) : String :=
  if month = 1 then "Meskerem"
  else if month = 2 then "Tikimt"
  else if month = 3 then "Hidar"
  else if month = 4 then "Tahsas"
  else if month = 5 then "Tir"
  else if month = 6 then "Yekatit"
  else if month = 7 then "Megabit"
  else if month = 8 then "Miazia"
  else if month = 9 then "Ginbot"
  else if month = 10 then "Sene"
  else if month = 11 then "Hamle"
  else if month = 12 then "Nehase"
  else if month = 13 then "Pagume"
  else "Unknown"

/-- The `match` table inside `EthiopianDate::amharic_weekday`
(source lines 114-125), as a function of the weekday index. -/
def amharic_weekday_name (w : Nat) : String :=
  if w = 0 then "እሁድ"
  else if w = 1 then "ሰኞ"
  else if w = 2 then "ማክሰኞ"
  else if w = 3 then "ረቡዕ"
  else if w = 4 then "ሐሙስ"
  else if w = 5 then "ዓርብ"
  else if w = 6 then "ቅዳሜ"
  else "Unknown"

/-- The `match` table inside `EthiopianDate::english_weekday`
(source lines 127-138). -/
def english_weekday_name (w : Nat) : String :=
  if w = 0 then "Sunday"
  else if w = 1 then "Monday"
  else if w = 2 then "Tuesday"
  else if w = 3 then "Wednesday"
  else if w = 4 then "Thursday"
  else if w = 5 then "Friday"
  else if w = 6 then "Saturday"
  else "Unknown"

/-- Modelled from the spec: existence of a date in the proleptic Gregorian
calendar (correct days per month including Gregorian leap years).  The leap
rule here also models `chrono::NaiveDate::from_ymd_opt`'s validity check used
by `EthiopianDate::weekday`.  Leap years: divisible by 4 and not by 100 unless
by 400. -/
def isGregorianLeap (y : Nat) : Bool :=
  decide (y % 4 = 0 ∧ (¬ y % 100 = 0 ∨ y % 400 = 0))

/-- Modelled from the spec: days per month of the proleptic Gregorian
calendar. -/
def gregorianDaysInMonth (y m : Nat) : Nat :=
  if m = 2 then
    if isGregorianLeap y then 29 else 28
  else if m = 4 ∨ m = 6 ∨ m = 9 ∨ m = 11 then 30
  else 31

/-- Modelled from the spec: a `(year, month, day)` triple forms an existing
proleptic-Gregorian date. -/
def gregorianValid (y m d : Nat) : Bool :=
  decide (1 ≤ m ∧ m ≤ 12 ∧ 1 ≤ d ∧ d ≤ gregorianDaysInMonth y m)

/-- A `(year, month, day)` triple forms an existing Ethiopian date, per the
data-model invariant: month 1..13, day 1..`days_in_month`. -/
def ethiopianValid (y m d : Nat) : Bool :=
  decide (1 ≤ y ∧ 1 ≤ m ∧ m ≤ 13 ∧ 1 ≤ d ∧ d ≤ days_in_month y m)

/-- Modelled from the spec: the Gregorian-to-day-count half of the external
`ethiopic_calendar` crate's conversion (missing from src/).  Standard
proleptic-Gregorian date to Julian Day Number (Fliegel-Van Flandern form). -/
def gregorianToJdn (y m d : Nat) : Nat :=
  let a := (14 - m) / 12
  let y2 := y + 4800 - a
  let m2 := m + 12 * a - 3
  d + (153 * m2 + 2) / 5 + 365 * y2 + y2 / 4 - y2 / 100 + y2 / 400 - 32045

/-- Modelled from the spec: the day-count-to-Gregorian half of the external
`ethiopic_calendar` crate's conversion (missing from src/).  Standard Julian
Day Number to proleptic-Gregorian date (Richards' algorithm). -/
def jdnToGregorian (j : Nat) : Nat × Nat × Nat :=
  let a := j + 32044
  let b := (4 * a + 3) / 146097
  let c := a - 146097 * b / 4
  let e := (4 * c + 3) / 1461
  let f := c - 1461 * e / 4
  let m := (5 * f + 2) / 153
  let day := f - (153 * m + 2) / 5 + 1
  let month := m + 3 - 12 * (m / 10)
  let year := 100 * b + e - 4800 + m / 10
  (year, month, day)

/-- Modelled from the spec: Ethiopian date to Julian Day Number, anchored at
the Amete Mihret epoch (Ethiopian 1-1-1 at JDN 1724221; era constant 1723856 =
1724221 - 365), as in the external `ethiopic_calendar` crate (missing from
src/).  Year `y` begins `365 * (y - 1) + y / 4` days after Ethiopian 1-1-1
because exactly the years `≡ 3 (mod 4)` have the sixth Pagume day. -/
def ethiopianToJdn (y m d : Nat) : Nat :=
  1723856 + 365 + 365 * (y - 1) + y / 4 + 30 * (m - 1) + (d - 1)

/-- Modelled from the spec: Julian Day Number to Ethiopian date, inverse of
`ethiopianToJdn` over the same Amete Mihret anchor (external
`ethiopic_calendar` crate, missing from src/).  The 4-year Ethiopian cycle is
1461 days; within a cycle the leap year sits at offset 3. -/
def jdnToEthiopian (j : Nat) : Nat × Nat × Nat :=
  let d0 := j - 1723856
  let cycle := d0 / 1461
  let r := d0 % 1461
  let n := r % 365 + 365 * (r / 1460)
  let year := 4 * cycle + r / 365 - r / 1460
  let month := n / 30 + 1
  let day := n % 30 + 1
  (year, month, day)

/-- Modelled from the spec: `GregorianYear → EthiopianYear` conversion of the
external `ethiopic_calendar` crate (missing from src/), via the day count. -/
def toEthiopian (g : Nat × Nat × Nat) : Nat × Nat × Nat :=
  jdnToEthiopian (gregorianToJdn g.1 g.2.1 g.2.2)

/-- Modelled from the spec: `EthiopianYear → GregorianYear` conversion of the
external `ethiopic_calendar` crate (missing from src/), via the day count. -/
def toGregorian (e : Nat × Nat × Nat) : Nat × Nat × Nat :=
  jdnToGregorian (ethiopianToJdn e.1 e.2.1 e.2.2)

/-- Modelled from the spec: `chrono`'s `Weekday::num_days_from_sunday` for a
valid Gregorian date — the standard day-of-week of the underlying day count,
with Sunday = 0 (JDN 0 is a Monday, hence the `+ 1`). -/
def num_days_from_sunday (y m d : Nat) : Nat :=
  (gregorianToJdn y m d + 1) % 7

/-- Modelled from the spec: `chrono::NaiveDate::from_ymd_opt` succeeds exactly
on existing proleptic-Gregorian dates inside chrono's supported range, whose
maximum date is 262142-12-31 (only the upper bound is visible in the `Nat`
model). -/
def chronoDateValid (y m d : Nat) : Bool :=
  decide (y ≤ 262142) && gregorianValid y m d

/-- `EthiopianDate::weekday` (source lines 103-112): convert to Gregorian,
then `chrono::NaiveDate::from_ymd_opt`; on a constructible date take
`num_days_from_sunday`, otherwise fall back to 0. -/
def weekday (year month day : Nat) : Nat :=
  let g := toGregorian (year, month, day)
  if chronoDateValid g.1 g.2.1 g.2.2 then
    num_days_from_sunday g.1 g.2.1 g.2.2
  else
    0

/-- `EthiopianDate::amharic_weekday` (source lines 114-125). -/
def amharic_weekday (year month day : Nat) : String :=
  amharic_weekday_name (weekday year month day)

/-- `EthiopianDate::english_weekday` (source lines 127-138). -/
def english_weekday (year month day : Nat) : String :=
  english_weekday_name (weekday year month day)

/-- `EthiopianDate` (source lines 12-19).  The Rust fields are `usize` and
`String`; the conversion uses only non-negative values, modelled as `Nat`. -/
structure EthiopianDate where
  year : Nat
  month : Nat
  day : Nat
  day_geez : String
deriving DecidableEq

/-- `EthiopianDate::from_gregorian` (source lines 40-51): converts through the
external crate and wraps the result in `Some` — there is no validation of the
input triple.  A `none` can only arise from a panic inside `to_geez_number`. -/
def from_gregorian (year month day : Nat) : Option EthiopianDate :=
  let e := toEthiopian (year, month, day)
  (to_geez_number e.2.2).map fun g =>
    { year := e.1, month := e.2.1, day := e.2.2, day_geez := g }

/-- `CalendarDay` (source lines 234-242). -/
structure CalendarDay where
  day : Nat
  day_geez : String
  is_today : Bool
  weekday : Nat
  weekday_name_amharic : String
  weekday_name_english : String
deriving DecidableEq

/-- `CalendarMonth` (source lines 223-232). -/
structure CalendarMonth where
  year : Nat
  year_geez : String
  month : Nat
  month_name_amharic : String
  month_name_english : String
  days : List CalendarDay
  first_day_weekday : Nat
deriving DecidableEq

/-- One iteration of the day loop in `CalendarMonth::new` (source lines
252-263), with the "today" date passed explicitly (the source reads it from
the system clock; the spec requires the clock to be injectable).  A `none`
models a panic inside `to_geez_number`. -/
def mkCalendarDay (year month ty tm td day : Nat) : Option CalendarDay :=
  (to_geez_number day).map fun g =>
    { day := day
      day_geez := g
      is_today := decide (year = ty ∧ month = tm ∧ day = td)
      weekday := weekday year month day
      weekday_name_amharic := amharic_weekday year month day
      weekday_name_english := english_weekday year month day }

/-- `CalendarMonth::new` (source lines 244-274), with the "today" date
`(ty, tm, td)` passed explicitly.  The source first renders day 1 in Geez for
the `first_day` value, then builds the day list, then renders the year; each
rendering can panic, modelled by the `Option` binds in the same order. -/
def CalendarMonth.new (year month ty tm td : Nat) : Option CalendarMonth := do
  let _fdg ← to_geez_number 1
  let days ← (List.range' 1 (days_in_month year month)).mapM
    (mkCalendarDay year month ty tm td)
  let yg ← to_geez_number year
  pure { year := year
         year_geez := yg
         month := month
         month_name_amharic := amharic_month month
         month_name_english := english_month month
         days := days
         first_day_weekday := weekday year month 1 }

/-- Pure form of one day-loop iteration, equal to `mkCalendarDay` whenever the
Geez rendering succeeds (in particular for every day up to 30). -/
def mkCalendarDayTotal (year month ty tm td day : Nat) : CalendarDay :=
  { day := day
    day_geez := (to_geez_number day).getD ""
    is_today := decide (year = ty ∧ month = tm ∧ day = td)
    weekday := weekday year month day
    weekday_name_amharic := amharic_weekday year month day
    weekday_name_english := english_weekday year month day }

/-- Shifted-calendar month lengths for the proof of the Gregorian round trip
(March-based, index 0 = March .. 11 = February, February counted with its leap
day). -/
def shiftedMonthLen (m2 : Nat) : Nat :=
  if m2 = 1 ∨ m2 = 3 ∨ m2 = 6 ∨ m2 = 8 then 30 else if m2 = 11 then 29 else 31

/-- Bounded check used by `month_layer`. -/
def monthLayerOk (m2 e : Nat) : Bool :=
  !(decide (e + 1 ≤ shiftedMonthLen m2)) ||
    (decide ((5 * ((153 * m2 + 2) / 5 + e) + 2) / 153 = m2) &&
     decide ((153 * m2 + 2) / 5 + e ≤ 365) &&
     (!(decide ((153 * m2 + 2) / 5 + e = 365)) || decide (m2 = 11 ∧ e = 28)))

/-- The shifted year used by `gregorianToJdn` (March-based). -/
def gY2 (y m : Nat) : Nat := y + 4800 - (14 - m) / 12

/-- The shifted month index used by `gregorianToJdn` (0 = March). -/
def gM2 (m : Nat) : Nat := m + 12 * ((14 - m) / 12) - 3

/-! ### Inverse lemmas for the day-count conversions -/

theorem ej_je (j : Nat) (h : 1724221 ≤ j) :
    ethiopianToJdn (jdnToEthiopian j).1 (jdnToEthiopian j).2.1 (jdnToEthiopian j).2.2 = j := by
  simp only [jdnToEthiopian, ethiopianToJdn]
  omega

theorem je_ej (y m d : Nat) (h : ethiopianValid y m d = true) :
    jdnToEthiopian (ethiopianToJdn y m d) = (y, m, d) := by
  simp only [ethiopianValid, decide_eq_true_eq] at h
  obtain ⟨hy, hm1, hm13, hd1, hd⟩ := h
  simp only [days_in_month] at hd
  have hcase : (m = 13 → (y % 4 = 3 → d ≤ 6) ∧ (¬ y % 4 = 3 → d ≤ 5)) ∧ (¬ m = 13 → d ≤ 30) := by
    split_ifs at hd <;> omega
  have hD : ethiopianToJdn y m d =
      1723856 + (1461 * (y / 4) + (365 * (y % 4) + 30 * (m - 1) + (d - 1))) := by
    simp only [ethiopianToJdn]; omega
  rw [hD]
  simp only [jdnToEthiopian, Nat.add_sub_cancel_left, Prod.mk.injEq]
  set t := 365 * (y % 4) + 30 * (m - 1) + (d - 1) with ht
  have hmod4 : y % 4 < 4 := Nat.mod_lt y (by norm_num)
  have htle : t ≤ 1460 := by omega
  have hq1461 : (1461 * (y / 4) + t) / 1461 = y / 4 :=
    Nat.div_eq_of_lt_le (by omega) (by omega)
  have hm1461 : (1461 * (y / 4) + t) % 1461 = t := by omega
  rw [hq1461, hm1461]
  by_cases hsp : y % 4 = 3 ∧ m = 13 ∧ d = 6
  · have ht1460 : t = 1460 := by omega
    rw [ht1460]
    omega
  · have hu365 : 30 * (m - 1) + (d - 1) < 365 := by omega
    have hq365 : t / 365 = y % 4 := Nat.div_eq_of_lt_le (by omega) (by omega)
    have hq1460 : t / 1460 = 0 := Nat.div_eq_of_lt (by omega)
    have hm365 : t % 365 = 30 * (m - 1) + (d - 1) := by omega
    rw [hq365, hq1460, hm365]
    simp only [Nat.mul_zero, Nat.add_zero]
    have hq30 : (30 * (m - 1) + (d - 1)) / 30 = m - 1 :=
      Nat.div_eq_of_lt_le (by omega) (by omega)
    have hm30 : (30 * (m - 1) + (d - 1)) % 30 = d - 1 := by omega
    rw [hq30, hm30]
    omega

theorem month_layer_bool : ∀ m2 < 12, ∀ e < 31, monthLayerOk m2 e = true := by decide

theorem month_layer (m2 e : Nat) (h2 : m2 < 12) (h3 : e < 31) (h4 : e + 1 ≤ shiftedMonthLen m2) :
    (5 * ((153 * m2 + 2) / 5 + e) + 2) / 153 = m2 ∧
    (153 * m2 + 2) / 5 + e ≤ 365 ∧
    ((153 * m2 + 2) / 5 + e = 365 → m2 = 11 ∧ e = 28) := by
  have hb := month_layer_bool m2 h2 e h3
  simp only [monthLayerOk, Bool.or_eq_true, Bool.and_eq_true, Bool.not_eq_true',
    decide_eq_true_eq, decide_eq_false_iff_not] at hb
  rcases hb with hb | hb
  · omega
  · exact ⟨hb.1.1, hb.1.2, fun h5 => by rcases hb.2 with h6 | h6 <;> [omega; exact h6]⟩

theorem G_split (w : Nat) :
    365 * w + w / 4 - w / 100 + w / 400 =
      146097 * (w / 400) + 36524 * (w % 400 / 100) + 1461 * (w % 400 % 100 / 4) +
        365 * (w % 400 % 100 % 4) := by
  have h1 : w / 4 = 100 * (w / 400) + 25 * (w % 400 / 100) + w % 400 % 100 / 4 :=
    Nat.div_eq_of_lt_le (by omega) (by omega)
  have h2 : w / 100 = 4 * (w / 400) + w % 400 / 100 :=
    Nat.div_eq_of_lt_le (by omega) (by omega)
  omega

theorem year_layer (Q C X R e2 : Nat) (hC : C ≤ 3) (hXR : 4 * X + R ≤ 99) (hR : R ≤ 3)
    (he2 : e2 ≤ 364 ∨ (e2 = 365 ∧ R = 3 ∧ (4 * X + R ≠ 99 ∨ C = 3))) :
    (4 * (146097 * Q + 36524 * C + 1461 * X + 365 * R + e2) + 3) / 146097 = 4 * Q + C ∧
    146097 * Q + 36524 * C + 1461 * X + 365 * R + e2 - 146097 * (4 * Q + C) / 4 =
      1461 * X + 365 * R + e2 ∧
    (4 * (1461 * X + 365 * R + e2) + 3) / 1461 = 4 * X + R ∧
    1461 * X + 365 * R + e2 - 1461 * (4 * X + R) / 4 = e2 := by
  have hb : (4 * (146097 * Q + 36524 * C + 1461 * X + 365 * R + e2) + 3) / 146097 = 4 * Q + C :=
    Nat.div_eq_of_lt_le (by omega) (by omega)
  have hc4 : 146097 * (4 * Q + C) / 4 = 146097 * Q + 36524 * C :=
    Nat.div_eq_of_lt_le (by omega) (by omega)
  have he : (4 * (1461 * X + 365 * R + e2) + 3) / 1461 = 4 * X + R :=
    Nat.div_eq_of_lt_le (by omega) (by omega)
  have hf4 : 1461 * (4 * X + R) / 4 = 1461 * X + 365 * R :=
    Nat.div_eq_of_lt_le (by omega) (by omega)
  exact ⟨hb, by omega, he, by omega⟩

theorem jdnToGregorian_digits (j Q C X R m2 e : Nat)
    (hj : j + 32044 = 146097 * Q + 36524 * C + 1461 * X + 365 * R + ((153 * m2 + 2) / 5 + e))
    (hC : C ≤ 3) (hXR : 4 * X + R ≤ 99) (hR : R ≤ 3)
    (hm2 : m2 < 12) (he : e < 31) (hlen : e + 1 ≤ shiftedMonthLen m2)
    (hfeb : m2 = 11 → e = 28 → R = 3 ∧ (4 * X + R ≠ 99 ∨ C = 3)) :
    jdnToGregorian j =
      (400 * Q + 100 * C + 4 * X + R - 4800 + m2 / 10, m2 + 3 - 12 * (m2 / 10), e + 1) := by
  obtain ⟨hml1, hml2, hml3⟩ := month_layer m2 e hm2 he hlen
  have hy2 := year_layer Q C X R ((153 * m2 + 2) / 5 + e) hC hXR hR
    (by rcases Nat.lt_or_ge ((153 * m2 + 2) / 5 + e) 365 with h5 | h5
        · exact Or.inl (by omega)
        · have h365 : (153 * m2 + 2) / 5 + e = 365 := by omega
          have := hfeb (hml3 h365).1 (hml3 h365).2
          exact Or.inr ⟨h365, this.1, this.2⟩)
  simp only [jdnToGregorian]
  rw [hj, hy2.1, hy2.2.1, hy2.2.2.1, hy2.2.2.2, hml1]
  simp only [Prod.mk.injEq]
  exact ⟨by omega, trivial, by omega⟩

theorem jg_gj (y m d : Nat) (hy : 1 ≤ y) (h : gregorianValid y m d = true) :
    jdnToGregorian (gregorianToJdn y m d) = (y, m, d) := by
  simp only [gregorianValid, decide_eq_true_eq] at h
  obtain ⟨hm1, hm12, hd1, hd⟩ := h
  simp only [gregorianDaysInMonth, isGregorianLeap, decide_eq_true_eq] at hd
  have ha0 : (m ≤ 2 ∧ (14 - m) / 12 = 1) ∨ (3 ≤ m ∧ (14 - m) / 12 = 0) := by
    rcases le_or_lt m 2 with h2 | h2
    · exact Or.inl ⟨h2, Nat.div_eq_of_lt_le (by omega) (by omega)⟩
    · exact Or.inr ⟨h2, Nat.div_eq_of_lt (by omega)⟩
  have hdB : (m = 2 → d ≤ 29) ∧ (m = 4 ∨ m = 6 ∨ m = 9 ∨ m = 11 → d ≤ 30) ∧ d ≤ 31 := by
    split_ifs at hd <;> omega
  have hdleap : m = 2 → d = 29 → y % 4 = 0 ∧ (¬ y % 100 = 0 ∨ y % 400 = 0) := by
    split_ifs at hd <;> omega
  have hj : gregorianToJdn y m d + 32044 =
      146097 * (gY2 y m / 400) + 36524 * (gY2 y m % 400 / 100) +
        1461 * (gY2 y m % 400 % 100 / 4) + 365 * (gY2 y m % 400 % 100 % 4) +
        ((153 * gM2 m + 2) / 5 + (d - 1)) := by
    have hG := G_split (y + 4800 - (14 - m) / 12)
    simp only [gregorianToJdn, gY2, gM2]
    omega
  have hC : gY2 y m % 400 / 100 ≤ 3 := by omega
  have hXR : 4 * (gY2 y m % 400 % 100 / 4) + gY2 y m % 400 % 100 % 4 ≤ 99 := by omega
  have hR : gY2 y m % 400 % 100 % 4 ≤ 3 := by omega
  have hm2lt : gM2 m < 12 := by
    rcases ha0 with ⟨h2, ha⟩ | ⟨h2, ha⟩ <;> simp only [gM2] <;> omega
  have he31 : d - 1 < 31 := by omega
  have hlen : (d - 1) + 1 ≤ shiftedMonthLen (gM2 m) := by
    rcases ha0 with ⟨h2, ha⟩ | ⟨h2, ha⟩ <;> interval_cases m <;>
      simp_all [gM2, shiftedMonthLen]
  have hfeb : gM2 m = 11 → d - 1 = 28 →
      gY2 y m % 400 % 100 % 4 = 3 ∧
        (4 * (gY2 y m % 400 % 100 / 4) + gY2 y m % 400 % 100 % 4 ≠ 99 ∨
          gY2 y m % 400 / 100 = 3) := by
    intro h11 h28
    have hm2eq : m = 2 := by
      rcases ha0 with ⟨h2, ha⟩ | ⟨h2, ha⟩ <;> simp only [gM2] at h11 <;> omega
    have hle := hdleap hm2eq (by omega)
    have hw : gY2 y m = y + 4799 := by
      simp only [gY2]
      rcases ha0 with ⟨h2, ha⟩ | ⟨h2, ha⟩ <;> omega
    rw [hw]
    have hmm1 : (y + 4799) % 400 % 100 = (y + 4799) % 100 :=
      Nat.mod_mod_of_dvd _ (by norm_num)
    have hmm2 : (y + 4799) % 100 % 4 = (y + 4799) % 4 :=
      Nat.mod_mod_of_dvd _ (by norm_num)
    constructor
    · omega
    · rcases hle.2 with h100 | h400
      · left; omega
      · right
        have h399 : (y + 4799) % 400 = 399 := by omega
        omega
  have hout := jdnToGregorian_digits (gregorianToJdn y m d) (gY2 y m / 400)
    (gY2 y m % 400 / 100) (gY2 y m % 400 % 100 / 4) (gY2 y m % 400 % 100 % 4)
    (gM2 m) (d - 1) hj hC hXR hR hm2lt he31 hlen hfeb
  rw [hout]
  have hM10 : gM2 m / 10 = (14 - m) / 12 := by
    rcases ha0 with ⟨h2, ha⟩ | ⟨h2, ha⟩ <;> simp only [gM2] <;> rw [ha]
    · exact Nat.div_eq_of_lt_le (by omega) (by omega)
    · exact Nat.div_eq_of_lt (by omega)
  have hwdig : 400 * (gY2 y m / 400) + 100 * (gY2 y m % 400 / 100) +
      4 * (gY2 y m % 400 % 100 / 4) + gY2 y m % 400 % 100 % 4 = gY2 y m := by omega
  have hwval : gY2 y m = y + 4800 - (14 - m) / 12 := rfl
  simp only [Prod.mk.injEq]
  refine ⟨by omega, ?_, by omega⟩
  rcases ha0 with ⟨h2, ha⟩ | ⟨h2, ha⟩ <;> rw [hM10, ha] <;> simp only [gM2] <;> rw [ha] <;> omega

theorem gj_jg (j : Nat) (h : 1721426 ≤ j) :
    gregorianToJdn (jdnToGregorian j).1 (jdnToGregorian j).2.1 (jdnToGregorian j).2.2 = j := by
  have hV : (j + 32044) % 146097 < 146097 := Nat.mod_lt _ (by norm_num)
  have hQV := Nat.div_add_mod (j + 32044) 146097
  set Q := (j + 32044) / 146097 with hQdef
  set V := (j + 32044) % 146097 with hVdef
  set CC := (4 * V + 3) / 146097 with hCCdef
  have hb : (4 * (j + 32044) + 3) / 146097 = 4 * Q + CC := by
    rw [show 4 * (j + 32044) + 3 = 146097 * (4 * Q) + (4 * V + 3) by omega,
      Nat.mul_add_div (by norm_num)]
  have hcc3 : CC ≤ 3 := by omega
  have hccV : 36524 * CC ≤ V := by omega
  set U := V - 36524 * CC with hUdef
  have hU36 : U ≤ 36524 := by omega
  have hc : j + 32044 - 146097 * (4 * Q + CC) / 4 = U := by
    rw [show 146097 * (4 * Q + CC) = 4 * (146097 * Q + 36524 * CC) + CC by ring,
      Nat.mul_add_div (by norm_num)]
    omega
  set E := (4 * U + 3) / 1461 with hEdef
  have he99 : E ≤ 99 := by omega
  have hef : 365 * E + E / 4 ≤ U := by omega
  have hf4 : 1461 * E / 4 = 365 * E + E / 4 := by
    rw [show 1461 * E = 4 * (365 * E) + E by ring, Nat.mul_add_div (by norm_num)]
  set F := U - (365 * E + E / 4) with hFdef
  have hF365 : F ≤ 365 := by omega
  set M := (5 * F + 2) / 153 with hMdef
  have hM11 : M ≤ 11 := by omega
  have hmd : (153 * M + 2) / 5 ≤ F := by omega
  have hGF : 1461 * (E / 4) + 365 * (E % 4) + F = U := by omega
  have hQ12 : 12 ≤ Q := by omega
  simp only [jdnToGregorian, gregorianToJdn]
  rw [hb, hc]
  rw [← hEdef, hf4, ← hFdef, ← hMdef]
  have hA0g : (14 - (M + 3 - 12 * (M / 10))) / 12 = M / 10 := by
    rcases le_or_lt M 9 with h9 | h9
    · have h10 : M / 10 = 0 := Nat.div_eq_of_lt (by omega)
      rw [h10]
      exact Nat.div_eq_of_lt (by omega)
    · have h10 : M / 10 = 1 := Nat.div_eq_of_lt_le (by omega) (by omega)
      rw [h10]
      exact Nat.div_eq_of_lt_le (by omega) (by omega)
  rw [hA0g]
  have hm2g : M + 3 - 12 * (M / 10) + 12 * (M / 10) - 3 = M := by omega
  rw [hm2g]
  have hWg : 100 * (4 * Q + CC) + E - 4800 + M / 10 + 4800 - M / 10 =
      100 * (4 * Q + CC) + E := by omega
  rw [hWg]
  have hG := G_split (100 * (4 * Q + CC) + E)
  have hd400 : (100 * (4 * Q + CC) + E) / 400 = Q := Nat.div_eq_of_lt_le (by omega) (by omega)
  have hd400m : (100 * (4 * Q + CC) + E) % 400 = 100 * CC + E := by omega
  have hd100 : (100 * (4 * Q + CC) + E) % 400 / 100 = CC := by
    rw [hd400m]
    exact Nat.div_eq_of_lt_le (by omega) (by omega)
  have hd100m : (100 * (4 * Q + CC) + E) % 400 % 100 = E := by rw [hd400m]; omega
  have hd4 : (100 * (4 * Q + CC) + E) % 400 % 100 / 4 = E / 4 := by rw [hd100m]
  have hd4m : (100 * (4 * Q + CC) + E) % 400 % 100 % 4 = E % 4 := by rw [hd100m]
  rw [hd400, hd100, hd4, hd4m] at hG
  omega

theorem gregorianToJdn_lower (y m d : Nat) (hy : 9 ≤ y) (hm : 1 ≤ m) (hm12 : m ≤ 12)
    (hd : 1 ≤ d) : 1724221 ≤ gregorianToJdn y m d := by
  simp only [gregorianToJdn]
  omega

theorem ethiopianToJdn_lower (y m d : Nat) : 1724221 ≤ ethiopianToJdn y m d := by
  simp only [ethiopianToJdn]
  omega

/-! ### Claim theorems -/

/-- C1: for every valid Gregorian date in the supported multi-century range
(all years from 9 onward), converting to Ethiopian and back yields the
identical Gregorian date, and symmetrically every valid Ethiopian date
(years from 1 onward) converts to Gregorian and back to the identical
Ethiopian date. -/
theorem claim_C1_round_trip :
    (∀ y m d : Nat, 9 ≤ y → gregorianValid y m d = true →
      toGregorian (toEthiopian (y, m, d)) = (y, m, d)) ∧
    (∀ y m d : Nat, ethiopianValid y m d = true →
      toEthiopian (toGregorian (y, m, d)) = (y, m, d)) := by
  constructor
  · intro y m d hy hv
    have hb : 1 ≤ m ∧ m ≤ 12 ∧ 1 ≤ d := by
      simp only [gregorianValid, decide_eq_true_eq] at hv
      exact ⟨hv.1, hv.2.1, hv.2.2.1⟩
    have hj : 1724221 ≤ gregorianToJdn y m d :=
      gregorianToJdn_lower y m d hy hb.1 hb.2.1 hb.2.2
    show jdnToGregorian
        (ethiopianToJdn (jdnToEthiopian (gregorianToJdn y m d)).1
          (jdnToEthiopian (gregorianToJdn y m d)).2.1
          (jdnToEthiopian (gregorianToJdn y m d)).2.2) = (y, m, d)
    rw [ej_je _ hj]
    exact jg_gj y m d (by omega) hv
  · intro y m d hv
    have hj : 1724221 ≤ ethiopianToJdn y m d := ethiopianToJdn_lower y m d
    show jdnToEthiopian
        (gregorianToJdn (jdnToGregorian (ethiopianToJdn y m d)).1
          (jdnToGregorian (ethiopianToJdn y m d)).2.1
          (jdnToGregorian (ethiopianToJdn y m d)).2.2) = (y, m, d)
    rw [gj_jg _ (by omega)]
    exact je_ej y m d hv

/-- C1 witness: the round trip at the concrete dates Gregorian 2024-09-11 and
Ethiopian 2017-01-01. -/
theorem claim_C1_round_trip_witness :
    (9 ≤ 2024 ∧ gregorianValid 2024 9 11 = true ∧
      toGregorian (toEthiopian (2024, 9, 11)) = (2024, 9, 11)) ∧
    (ethiopianValid 2017 1 1 = true ∧
      toEthiopian (toGregorian (2017, 1, 1)) = (2017, 1, 1)) :=
  ⟨⟨by norm_num, by decide, claim_C1_round_trip.1 2024 9 11 (by norm_num) (by decide)⟩,
   ⟨by decide, claim_C1_round_trip.2 2017 1 1 (by decide)⟩⟩

/-! ### Helper lemmas for the encoder and the month view -/

theorem geez_isSome_le_30 : ∀ d, d ≤ 30 → (to_geez_number d).isSome = true := by decide

theorem days_in_month_le (year month : Nat) : days_in_month year month ≤ 30 := by
  simp only [days_in_month]
  split_ifs <;> omega

theorem days_in_month_pos (year month : Nat) : 1 ≤ days_in_month year month := by
  simp only [days_in_month]
  split_ifs <;> omega

theorem mapM_eq_map_of_some {α β : Type} (f : α → Option β) (g : α → β) :
    ∀ l : List α, (∀ a ∈ l, f a = some (g a)) → l.mapM f = some (l.map g) := by
  intro l
  induction l with
  | nil => intro _; rfl
  | cons x xs ih =>
    intro h
    rw [List.map_cons, List.mapM_cons, h x (List.mem_cons_self x xs),
      ih (fun a ha => h a (List.mem_cons_of_mem x ha))]
    rfl

theorem mkCalendarDay_eq_total (year month ty tm td day : Nat) (h : day ≤ 30) :
    mkCalendarDay year month ty tm td day =
      some (mkCalendarDayTotal year month ty tm td day) := by
  have hs := geez_isSome_le_30 day h
  obtain ⟨g, hg⟩ := Option.isSome_iff_exists.mp hs
  simp [mkCalendarDay, mkCalendarDayTotal, hg]

theorem CalendarMonth_new_eval (year month ty tm td : Nat) :
    CalendarMonth.new year month ty tm td =
      (to_geez_number year).map fun yg =>
        { year := year
          year_geez := yg
          month := month
          month_name_amharic := amharic_month month
          month_name_english := english_month month
          days := (List.range' 1 (days_in_month year month)).map
            (mkCalendarDayTotal year month ty tm td)
          first_day_weekday := weekday year month 1 } := by
  have hmap := mapM_eq_map_of_some (mkCalendarDay year month ty tm td)
    (mkCalendarDayTotal year month ty tm td)
    (List.range' 1 (days_in_month year month))
    (fun a ha => by
      have hmem := List.mem_range'_1.mp ha
      exact mkCalendarDay_eq_total year month ty tm td a
        (by have := days_in_month_le year month; omega))
  simp only [CalendarMonth.new, hmap]
  rw [show to_geez_number 1 = some "፩" from rfl]
  cases to_geez_number year <;> rfl

theorem countP_range'_eq (td : Nat) : ∀ n s : Nat,
    (List.range' s n).countP (fun day => decide (day = td)) =
      if s ≤ td ∧ td < s + n then 1 else 0 := by
  intro n
  induction n with
  | zero =>
    intro s
    rw [show List.range' s 0 = [] from rfl, List.countP_nil, if_neg (by omega)]
  | succ k ih =>
    intro s
    rw [List.range'_succ, List.countP_cons, ih (s + 1)]
    by_cases hs : s = td <;> split_ifs <;> simp_all <;> omega

/-- C2 counterexample: Gregorian 2024-02-30 does not exist, yet
`from_gregorian` produces a date rather than `None`. -/
theorem claim_C2_counterexample :
    gregorianValid 2024 2 30 = false ∧ (from_gregorian 2024 2 30).isSome = true := by
  decide

/-- C2 (amended): `from_gregorian` performs no validation at all — for every
input triple it returns `Some` converted date; the `None` branch is never
taken. -/
theorem claim_C2_no_validation (year month day : Nat) :
    (from_gregorian year month day).isSome = true := by
  simp only [from_gregorian]
  have hle : (toEthiopian (year, month, day)).2.2 ≤ 30 := by
    simp only [toEthiopian, jdnToEthiopian]
    omega
  have hs := geez_isSome_le_30 _ hle
  obtain ⟨g, hg⟩ := Option.isSome_iff_exists.mp hs
  rw [hg]
  rfl

/-- C3: the Geez encoder is not total — at 90 (and at 9000) it indexes the
nine-entry tens table with 9, out of bounds, i.e. the Rust code panics;
every input below 90 is handled. -/
theorem claim_C3_geez_panics :
    to_geez_number 90 = none ∧ to_geez_number 9000 = none ∧
      (∀ n < 90, (to_geez_number n).isSome = true) := by
  refine ⟨by decide, by decide, by decide⟩

/-- C4 counterexample: `encode(99)` does not compose tens+ones — it fails
(out-of-bounds indexing, a Rust panic), so no string is returned at all. -/
theorem claim_C4_counterexample : to_geez_number 99 = none := by decide

theorem geez_tens_compose : ∀ k < 80, to_geez_number (10 + k) =
    some (geez_tens.getD ((10 + k) / 10) "" ++ geez_digits.getD ((10 + k) % 10) "") := by
  decide

theorem geez_90s_none : ∀ k < 10, to_geez_number (90 + k) = none := by decide

/-- C4 (amended): the documented value table holds — `encode 0 = ""`,
`encode 1 = "፩"`, `encode 10 = "፲"`, `encode 100 = "፻"`, numbers from 10 to 89
compose as tens glyph followed by unit glyph (the unit glyph empty on exact
tens, and the dedicated single ten glyph when the tens digit is 1, since it is
the table entry at index 1), and everything from 10000 on falls back to the
decimal digit string — but for 90 to 99 the encoder fails (out-of-bounds
indexing) instead of composing. -/
theorem claim_C4_numeral_table :
    to_geez_number 0 = some "" ∧
    to_geez_number 1 = some "፩" ∧
    to_geez_number 10 = some "፲" ∧
    to_geez_number 100 = some "፻" ∧
    (∀ n, 10 ≤ n → n ≤ 89 →
      to_geez_number n = some (geez_tens.getD (n / 10) "" ++ geez_digits.getD (n % 10) "")) ∧
    (∀ n, 90 ≤ n → n ≤ 99 → to_geez_number n = none) ∧
    (∀ n, 10000 ≤ n → to_geez_number n = some (Nat.repr n)) := by
  refine ⟨by decide, by decide, by decide, by decide, ?_, ?_, ?_⟩
  · intro n h1 h2
    have h := geez_tens_compose (n - 10) (by omega)
    have hn : 10 + (n - 10) = n := by omega
    rw [hn] at h
    exact h
  · intro n h1 h2
    have h := geez_90s_none (n - 90) (by omega)
    have hn : 90 + (n - 90) = n := by omega
    rw [hn] at h
    exact h
  · intro n h1
    have g0 : ¬ n = 0 := by omega
    have g1 : ¬ n < 10 := by omega
    have g2 : ¬ n < 100 := by omega
    have g3 : ¬ n < 1000 := by omega
    have g4 : ¬ n < 10000 := by omega
    simp only [to_geez_number, geezAux]
    rw [if_neg g0, if_neg g1, if_neg g2, if_neg g3, if_neg g4]

/-- C4 witness: the amended table at 45 (tens+ones composition), 95 (failure
band) and 12345 (decimal fallback). -/
theorem claim_C4_numeral_table_witness :
    (10 ≤ 45 ∧ 45 ≤ 89 ∧
      to_geez_number 45 = some (geez_tens.getD (45 / 10) "" ++ geez_digits.getD (45 % 10) "")) ∧
    (90 ≤ 95 ∧ 95 ≤ 99 ∧ to_geez_number 95 = none) ∧
    (10000 ≤ 12345 ∧ to_geez_number 12345 = some (Nat.repr 12345)) :=
  ⟨⟨by norm_num, by norm_num,
      claim_C4_numeral_table.2.2.2.2.1 45 (by norm_num) (by norm_num)⟩,
   ⟨by norm_num, by norm_num,
      claim_C4_numeral_table.2.2.2.2.2.1 95 (by norm_num) (by norm_num)⟩,
   ⟨by norm_num, claim_C4_numeral_table.2.2.2.2.2.2 12345 (by norm_num)⟩⟩

/-- C5: month 13 has 6 days exactly when `year % 4 = 3` and 5 otherwise, and
every month from 1 to 12 has exactly 30 days — uniformly for every Ethiopian
year, hence in particular over any 100 consecutive years. -/
theorem claim_C5_days_in_month (year month : Nat) :
    (days_in_month year 13 = if year % 4 = 3 then 6 else 5) ∧
    (1 ≤ month → month ≤ 12 → days_in_month year month = 30) := by
  constructor
  · simp [days_in_month]
  · intro h1 h2
    simp only [days_in_month]
    rw [if_neg (by omega)]

/-- C5 witness: the month-length rule at year 2015 (non-leap) and month 7. -/
theorem claim_C5_days_in_month_witness :
    (days_in_month 2015 13 = if 2015 % 4 = 3 then 6 else 5) ∧
    (1 ≤ 7 ∧ 7 ≤ 12 ∧ days_in_month 2015 7 = 30) :=
  ⟨(claim_C5_days_in_month 2015 7).1,
   by norm_num, by norm_num, (claim_C5_days_in_month 2015 7).2 (by norm_num) (by norm_num)⟩

/-- C8: the localization lookups are total with a sentinel fallback — indices
1..13 (months) and 0..6 (weekdays) return a real name, every other index
returns the string "Unknown", and no lookup can fail. -/
theorem claim_C8_localization_total (n : Nat) :
    ((1 ≤ n ∧ n ≤ 13) → amharic_month n ≠ "Unknown" ∧ english_month n ≠ "Unknown") ∧
    (¬(1 ≤ n ∧ n ≤ 13) → amharic_month n = "Unknown" ∧ english_month n = "Unknown") ∧
    (n ≤ 6 → amharic_weekday_name n ≠ "Unknown" ∧ english_weekday_name n ≠ "Unknown") ∧
    (¬ n ≤ 6 → amharic_weekday_name n = "Unknown" ∧ english_weekday_name n = "Unknown") := by
  refine ⟨?_, ?_, ?_, ?_⟩
  · rintro ⟨h1, h2⟩
    interval_cases n <;> decide
  · intro h
    rcases (show n = 0 ∨ 14 ≤ n by omega) with rfl | h14
    · exact ⟨rfl, rfl⟩
    · have ne : ∀ k, k < 14 → ¬ n = k := fun k hk he => by omega
      constructor
      · simp only [amharic_month]
        rw [if_neg (ne 1 (by norm_num)), if_neg (ne 2 (by norm_num)),
          if_neg (ne 3 (by norm_num)), if_neg (ne 4 (by norm_num)),
          if_neg (ne 5 (by norm_num)), if_neg (ne 6 (by norm_num)),
          if_neg (ne 7 (by norm_num)), if_neg (ne 8 (by norm_num)),
          if_neg (ne 9 (by norm_num)), if_neg (ne 10 (by norm_num)),
          if_neg (ne 11 (by norm_num)), if_neg (ne 12 (by norm_num)),
          if_neg (ne 13 (by norm_num))]
      · simp only [english_month]
        rw [if_neg (ne 1 (by norm_num)), if_neg (ne 2 (by norm_num)),
          if_neg (ne 3 (by norm_num)), if_neg (ne 4 (by norm_num)),
          if_neg (ne 5 (by norm_num)), if_neg (ne 6 (by norm_num)),
          if_neg (ne 7 (by norm_num)), if_neg (ne 8 (by norm_num)),
          if_neg (ne 9 (by norm_num)), if_neg (ne 10 (by norm_num)),
          if_neg (ne 11 (by norm_num)), if_neg (ne 12 (by norm_num)),
          if_neg (ne 13 (by norm_num))]
  · intro h
    interval_cases n <;> decide
  · intro h
    have nw : ∀ k, k < 7 → ¬ n = k := fun k hk he => by omega
    constructor
    · simp only [amharic_weekday_name]
      rw [if_neg (nw 0 (by norm_num)), if_neg (nw 1 (by norm_num)),
        if_neg (nw 2 (by norm_num)), if_neg (nw 3 (by norm_num)),
        if_neg (nw 4 (by norm_num)), if_neg (nw 5 (by norm_num)),
        if_neg (nw 6 (by norm_num))]
    · simp only [english_weekday_name]
      rw [if_neg (nw 0 (by norm_num)), if_neg (nw 1 (by norm_num)),
        if_neg (nw 2 (by norm_num)), if_neg (nw 3 (by norm_num)),
        if_neg (nw 4 (by norm_num)), if_neg (nw 5 (by norm_num)),
        if_neg (nw 6 (by norm_num))]

/-- C8 witness: the lookups at in-range indices 5 and out-of-range index 99. -/
theorem claim_C8_localization_total_witness :
    ((1 ≤ 5 ∧ 5 ≤ 13) ∧ amharic_month 5 ≠ "Unknown" ∧ english_month 5 ≠ "Unknown") ∧
    (¬(1 ≤ 99 ∧ 99 ≤ 13) ∧ amharic_month 99 = "Unknown" ∧ english_month 99 = "Unknown") ∧
    ((5 : Nat) ≤ 6 ∧ amharic_weekday_name 5 ≠ "Unknown") ∧
    (¬ (99 : Nat) ≤ 6 ∧ english_weekday_name 99 = "Unknown") :=
  ⟨⟨by norm_num, (claim_C8_localization_total 5).1 (by norm_num)⟩,
   ⟨by omega, (claim_C8_localization_total 99).2.1 (by omega)⟩,
   ⟨by norm_num, ((claim_C8_localization_total 5).2.2.1 (by norm_num)).1⟩,
   ⟨by omega, ((claim_C8_localization_total 99).2.2.2 (by omega)).2⟩⟩

/-- C9: Gregorian 2024-09-11 converts to Ethiopian 2017-01-01 with English
month name "Meskerem", Amharic month name "መስከረም", and Geez day "፩". -/
theorem claim_C9_end_to_end :
    from_gregorian 2024 9 11 = some ⟨2017, 1, 1, "፩"⟩ ∧
    english_month 1 = "Meskerem" ∧ amharic_month 1 = "መስከረም" ∧
    to_geez_number 1 = some "፩" := by
  refine ⟨by decide, rfl, rfl, by decide⟩

/-- C10: the weekday derivation is total with range 0..6 — on any Ethiopian
input it is at most 6, and whenever the converted Gregorian triple is not a
date `chrono` can construct it falls back to 0 (Sunday). -/
theorem claim_C10_weekday_total (y m d : Nat) :
    weekday y m d ≤ 6 ∧
    (chronoDateValid (toGregorian (y, m, d)).1 (toGregorian (y, m, d)).2.1
        (toGregorian (y, m, d)).2.2 = false → weekday y m d = 0) := by
  constructor
  · simp only [weekday]
    split
    · simp only [num_days_from_sunday]
      omega
    · omega
  · intro hinv
    simp only [weekday]
    rw [if_neg (by simp [hinv])]

/-- C10 witness: the range bound at Ethiopian 2017-01-01 and the Sunday
fallback at Ethiopian year 300000, whose Gregorian equivalent is beyond
chrono's maximum year. -/
theorem claim_C10_weekday_total_witness :
    weekday 2017 1 1 ≤ 6 ∧
    (chronoDateValid (toGregorian (300000, 1, 1)).1 (toGregorian (300000, 1, 1)).2.1
        (toGregorian (300000, 1, 1)).2.2 = false ∧ weekday 300000 1 1 = 0) :=
  ⟨(claim_C10_weekday_total 2017 1 1).1,
   by decide, (claim_C10_weekday_total 300000 1 1).2 (by decide)⟩

/-- C6: whenever the month-view builder produces a `CalendarMonth` (for any
year, month and injected "today"), its day list has length
`days_in_month year month`, is ordered by day ascending and contiguous from 1,
and its first entry's weekday equals `first_day_weekday`. -/
theorem claim_C6_month_view (year month ty tm td : Nat) :
    (CalendarMonth.new year month ty tm td).elim True fun cm =>
      cm.days.length = days_in_month year month ∧
      (∀ i : Fin cm.days.length, (cm.days.get i).day = i.val + 1) ∧
      (cm.days.map fun cd => cd.weekday).head? = some cm.first_day_weekday := by
  rw [CalendarMonth_new_eval]
  cases hyg : to_geez_number year with
  | none => exact trivial
  | some yg =>
    simp only [Option.map_some', Option.elim]
    refine ⟨by simp, ?_, ?_⟩
    · intro i
      simp only [List.get_eq_getElem, List.getElem_map, List.getElem_range',
        mkCalendarDayTotal]
      omega
    · have hpos := days_in_month_pos year month
      rw [show days_in_month year month = (days_in_month year month - 1) + 1 by omega,
        List.range'_succ]
      rfl

/-- C7: whenever the month-view builder produces a `CalendarMonth`, exactly
one entry is marked `is_today` when the injected "today" falls inside the
requested (year, month), else none is marked. -/
theorem claim_C7_today_marker (year month ty tm td : Nat) (htd : 1 ≤ td) :
    (CalendarMonth.new year month ty tm td).elim True fun cm =>
      cm.days.countP (fun cd => cd.is_today) =
        if year = ty ∧ month = tm ∧ td ≤ days_in_month year month then 1 else 0 := by
  rw [CalendarMonth_new_eval]
  cases hyg : to_geez_number year with
  | none => exact trivial
  | some yg =>
    simp only [Option.map_some', Option.elim]
    rw [List.countP_map]
    by_cases hym : year = ty ∧ month = tm
    · obtain ⟨h1, h2⟩ := hym
      subst h1
      subst h2
      have hfun : ((fun cd => cd.is_today) ∘ mkCalendarDayTotal year month year month td) =
          fun day => decide (day = td) := by
        funext day
        simp [mkCalendarDayTotal]
      rw [hfun, countP_range'_eq]
      split_ifs <;> omega
    · have hzero : ∀ a ∈ List.range' 1 (days_in_month year month),
          ¬ ((fun cd => cd.is_today) ∘ mkCalendarDayTotal year month ty tm td) a = true := by
        intro a _
        simp only [Function.comp_apply, mkCalendarDayTotal, decide_eq_true_eq]
        tauto
      rw [List.countP_eq_zero.mpr hzero, if_neg (by tauto)]

/-- C7 witness: the month view of Ethiopian 2017-01 with "today" injected as
2017-01-01 marks exactly one day. -/
theorem claim_C7_today_marker_witness :
    1 ≤ 1 ∧ ((CalendarMonth.new 2017 1 2017 1 1).elim True fun cm =>
      cm.days.countP (fun cd => cd.is_today) =
        if 2017 = 2017 ∧ 1 = 1 ∧ 1 ≤ days_in_month 2017 1 then 1 else 0) :=
  ⟨by norm_num, claim_C7_today_marker 2017 1 2017 1 1 (by norm_num)⟩

/-- C6 witness: the invariants at the concrete month view of Ethiopian
2017-01. -/
theorem claim_C6_month_view_witness :
    (CalendarMonth.new 2017 1 2017 1 1).elim True fun cm =>
      cm.days.length = days_in_month 2017 1 ∧
      (∀ i : Fin cm.days.length, (cm.days.get i).day = i.val + 1) ∧
      (cm.days.map fun cd => cd.weekday).head? = some cm.first_day_weekday :=
  claim_C6_month_view 2017 1 2017 1 1
